import Mathlib

/-!
Verification of the radioscripts station composition engine
(`radioscripts/audio.py`, `radioscripts/worker.py`) against its design
specification.  Clip durations, measured by the external audio engine as
(nonnegative) real numbers, are modelled as rationals; fallible steps are
modelled with `Option` / `Except`.
-/

namespace RadioScripts

/-- Embeds `Worker.collect_samples` (worker.py lines 114-141).  A candidate is
`none` when its duration measurement fails (`SoxError`), and `some f` when the
engine reports duration `f`.  `remaining` starts at the target duration and
`skips` at the skip budget (`skips_count`, a Python int, hence `ℤ`).  The
result is the list of durations of the accepted samples, in acceptance order:
a measurement failure is discarded with nothing changed; a candidate with
`remaining - f <= 0` does not fit and consumes a skip (stopping everything
once the counter drops to zero or below); a fitting candidate is yielded and
its duration subtracted from `remaining`. -/
def collectSamples (remaining : ℚ) (skips : ℤ) : List (Option ℚ) → List ℚ
  | [] => []
  | none :: rest => collectSamples remaining skips rest
  | some f :: rest =>
      if remaining - f ≤ 0 then
        if skips - 1 ≤ 0 then [] else collectSamples remaining (skips - 1) rest
      else
        f :: collectSamples (remaining - f) skips rest

/-- Helper: the accepted durations never sum to more than the starting
budget, as long as that budget is nonnegative. -/
theorem collectSamples_sum_le (cands : List (Option ℚ)) :
    ∀ (remaining : ℚ) (skips : ℤ), 0 ≤ remaining →
      (collectSamples remaining skips cands).sum ≤ remaining := by
  induction cands with
  | nil => intro r s hr; simpa [collectSamples] using hr
  | cons c rest ih =>
      intro r s hr
      match c with
      | none => simpa [collectSamples] using ih r s hr
      | some f =>
          by_cases hfit : r - f ≤ 0
          · by_cases hs : s - 1 ≤ 0
            · simpa [collectSamples, hfit, hs] using hr
            · simpa [collectSamples, hfit, hs] using ih r (s - 1) hr
          · have hlt : 0 < r - f := lt_of_not_ge (fun h => hfit (by linarith))
            have := ih (r - f) s (le_of_lt hlt)
            simp only [collectSamples, hfit, if_false, List.sum_cons]
            linarith

/-- Helper: with a strictly positive starting budget the accepted durations
sum to strictly less than the budget. -/
theorem collectSamples_sum_lt (cands : List (Option ℚ)) :
    ∀ (remaining : ℚ) (skips : ℤ), 0 < remaining →
      (collectSamples remaining skips cands).sum < remaining := by
  induction cands with
  | nil => intro r s hr; simpa [collectSamples] using hr
  | cons c rest ih =>
      intro r s hr
      match c with
      | none => simpa [collectSamples] using ih r s hr
      | some f =>
          by_cases hfit : r - f ≤ 0
          · by_cases hs : s - 1 ≤ 0
            · simpa [collectSamples, hfit, hs] using hr
            · simpa [collectSamples, hfit, hs] using ih r (s - 1) hr
          · have hlt : 0 < r - f := lt_of_not_ge (fun h => hfit (by linarith))
            have := ih (r - f) s hlt
            simp only [collectSamples, hfit, if_false, List.sum_cons]
            linarith

/-- C4: for every (nonnegative) target duration, every skip budget and every
candidate stream, the sum of the measured durations of the samples accepted by
the packer `collect_samples` is at most the target duration: the packer never
overshoots. -/
theorem c4_no_overshoot (target : ℚ) (skips : ℤ) (cands : List (Option ℚ))
    (htarget : 0 ≤ target) :
    (collectSamples target skips cands).sum ≤ target :=
  collectSamples_sum_le cands target skips htarget

/-- Witness for C4 at a concrete input. -/
theorem c4_no_overshoot_witness :
    (collectSamples 30 5 [some 10, some 20, some 15]).sum ≤ 30 :=
  c4_no_overshoot 30 5 [some 10, some 20, some 15] (by norm_num)

/-- C10: for every strictly positive target the packer strictly undershoots
(the accepted durations sum to strictly less than the target), and a candidate
whose duration exactly equals the remaining budget is treated as not fitting:
it consumes a skip instead of being accepted. -/
theorem c10_strict_undershoot (target : ℚ) (skips : ℤ)
    (cands rest : List (Option ℚ)) (htarget : 0 < target) :
    (collectSamples target skips cands).sum < target ∧
      collectSamples target skips (some target :: rest) =
        (if skips - 1 ≤ 0 then [] else collectSamples target (skips - 1) rest) := by
  refine ⟨collectSamples_sum_lt cands target skips htarget, ?_⟩
  simp [collectSamples]

/-- Witness for C10 at a concrete input. -/
theorem c10_strict_undershoot_witness :
    (collectSamples 30 5 [some 10, some 20, some 15]).sum < 30 ∧
      collectSamples 30 5 [some 30] =
        (if (5 : ℤ) - 1 ≤ 0 then [] else collectSamples 30 4 []) :=
  c10_strict_undershoot 30 5 [some 10, some 20, some 15] [] (by norm_num)

/-- C7: a candidate whose duration measurement fails is discarded without
touching the skip counter or the remaining budget; a fitting candidate is
accepted, also without touching the skip counter; only a candidate that does
not fit the remaining budget consumes a skip. -/
theorem c7_skip_policy (remaining : ℚ) (skips : ℤ) (f : ℚ)
    (rest : List (Option ℚ)) :
    collectSamples remaining skips (none :: rest) =
        collectSamples remaining skips rest ∧
      (0 < remaining - f →
        collectSamples remaining skips (some f :: rest) =
          f :: collectSamples (remaining - f) skips rest) ∧
      (remaining - f ≤ 0 →
        collectSamples remaining skips (some f :: rest) =
          (if skips - 1 ≤ 0 then []
           else collectSamples remaining (skips - 1) rest)) := by
  refine ⟨by simp [collectSamples], fun hfit => ?_, fun hnofit => ?_⟩
  · simp [collectSamples, not_le.mpr hfit]
  · simp [collectSamples, hnofit]

/-- Witness for C7 at a concrete input. -/
theorem c7_skip_policy_witness :
    collectSamples 30 5 [none, some 10] = collectSamples 30 5 [some 10] ∧
      collectSamples 30 5 [some 10, none] =
        10 :: collectSamples 20 5 [none] := by
  refine ⟨(c7_skip_policy 30 5 10 [some 10]).1, ?_⟩
  exact (c7_skip_policy 30 5 10 [none]).2.1 (by norm_num)

/-- C3 counterexample: with measured candidate durations `[10, 20, 15]` and an
effectively unlimited skip budget (here 100, never exhausted on a 3-candidate
stream), the packer does not accept `[10, 20]`: with target 25 the
20-duration candidate does not fit after 10 is accepted, and with target 30
the 20-duration candidate exactly equals the remaining budget 20 and is
skipped rather than accepted. -/
theorem c3_packer_example_counterexample :
    collectSamples 25 100 [some 10, some 20, some 15] ≠ [10, 20] ∧
      collectSamples 30 100 [some 10, some 20, some 15] ≠ [10, 20] := by
  constructor <;> (norm_num [collectSamples])

/-- C3 (amended): with candidate durations `[10, 20, 15]` and an unlimited
skip budget, target 25 accepts exactly `[10]` (both later candidates fail to
fit, each consuming a skip), and target 30 accepts exactly `[10, 15]` — the
20-duration candidate exactly equals the remaining budget and is skipped —
leaving remaining `30 - 25 = 5`, not 0. -/
theorem c3_packer_example_amended :
    collectSamples 25 100 [some 10, some 20, some 15] = [10] ∧
      collectSamples 30 100 [some 10, some 20, some 15] = [10, 15] ∧
      30 - (collectSamples 30 100 [some 10, some 20, some 15]).sum = 5 := by
  norm_num [collectSamples]

/-- Embeds the update loop of `join` (audio.py lines 78-79):
`splices[index] = splices[index - 1] + splices[index] - excess * index`,
run for `index` from 1 upward.  `prev` is the already-updated
`splices[index - 1]` and each list element is the original measured duration
at that index. -/
def spliceLoop (excess prev : ℚ) (index : ℕ) : List ℚ → List ℚ
  | [] => []
  | d :: rest =>
      (prev + d - excess * index) ::
        spliceLoop excess (prev + d - excess * index) (index + 1) rest

/-- The splice list of `join` as a function of the duration list
`splices = measure_durations(*input_paths)[:-1]`: the first entry is left
untouched (`d[0]`), the rest follow the `spliceLoop` recurrence. -/
def joinSplicesAux (excess : ℚ) : List ℚ → List ℚ
  | [] => []
  | d0 :: rest => d0 :: spliceLoop excess d0 1 rest

/-- Embeds `join` (audio.py lines 71-88) restricted to its splice-position
computation: `excess = crossfade_duration / 2`, the working list is the
measured durations with the last dropped, and the loop above updates it in
place.  The actual sox invocation at those positions is external. -/
def joinSplices (durations : List ℚ) (crossfade : ℚ) : List ℚ :=
  joinSplicesAux (crossfade / 2) durations.dropLast

/-- Cumulative boundary of the unspliced concatenation:
`boundary[i] = d[0] + ... + d[i]`. -/
def boundary (durations : List ℚ) (i : ℕ) : ℚ := (durations.take (i + 1)).sum

/-- Modelled from the spec (section 4.3): the claimed splice formula
`splice[i] = boundary[i] - excess * (i + 1)` with `excess = crossfade / 2`,
for `i = 0 .. N-2`.  Stated from the spec's words, to be compared with
`joinSplices`, which embeds the source. -/
def specSplices (durations : List ℚ) (crossfade : ℚ) : List ℚ :=
  (List.range (durations.length - 1)).map
    (fun i => boundary durations i - crossfade / 2 * ((i : ℚ) + 1))

theorem spliceLoop_length (e p : ℚ) (k : ℕ) (l : List ℚ) :
    (spliceLoop e p k l).length = l.length := by
  induction l generalizing p k with
  | nil => simp [spliceLoop]
  | cons d rest ih => simp [spliceLoop, ih]

/-- Helper closed form for the loop: starting from accumulator `p` at index
`k`, the `j`-th produced entry is
`p + (sum of the first j+1 durations) - e * ((j+1)*k + j*(j+1)/2)`. -/
theorem spliceLoop_getD (e : ℚ) (l : List ℚ) :
    ∀ (p : ℚ) (k j : ℕ), j < l.length →
      (spliceLoop e p k l).getD j 0 =
        p + (l.take (j + 1)).sum -
          e * (((j : ℚ) + 1) * (k : ℚ) + (j : ℚ) * ((j : ℚ) + 1) / 2) := by
  induction l with
  | nil => intro p k j hj; simp at hj
  | cons d rest ih =>
      intro p k j hj
      cases j with
      | zero =>
          simp [spliceLoop]
      | succ j =>
          have hj' : j < rest.length := by simpa using hj
          have hrec := ih (p + d - e * k) (k + 1) j hj'
          simp only [spliceLoop, List.getD_cons_succ, List.take_succ_cons,
            List.sum_cons]
          rw [hrec]
          push_cast
          ring

/-- Helper closed form for `joinSplicesAux`: the `j`-th splice equals the sum
of the first `j+1` working durations minus `e * j*(j+1)/2`. -/
theorem joinSplicesAux_getD (e : ℚ) (l : List ℚ) (j : ℕ) (hj : j < l.length) :
    (joinSplicesAux e l).getD j 0 =
      (l.take (j + 1)).sum - e * ((j : ℚ) * ((j : ℚ) + 1) / 2) := by
  match l with
  | [] => simp at hj
  | d0 :: rest =>
      cases j with
      | zero => simp [joinSplicesAux]
      | succ j =>
          have hj' : j < rest.length := by simpa using hj
          have hrec := spliceLoop_getD e rest d0 1 j hj'
          simp only [joinSplicesAux, List.getD_cons_succ, List.take_succ_cons,
            List.sum_cons]
          rw [hrec]
          push_cast
          ring

theorem joinSplicesAux_length (e : ℚ) (l : List ℚ) :
    (joinSplicesAux e l).length = l.length := by
  match l with
  | [] => rfl
  | d0 :: rest => simp [joinSplicesAux, spliceLoop_length]

theorem joinSplices_length (d : List ℚ) (c : ℚ) :
    (joinSplices d c).length = d.length - 1 := by
  rw [joinSplices, joinSplicesAux_length, List.length_dropLast]

/-- Taking an initial segment that stays inside `dropLast` gives the same sum
as taking it from the full list. -/
theorem dropLast_take_sum (d : List ℚ) (i : ℕ) (h : i < d.length - 1) :
    (d.dropLast.take (i + 1)).sum = boundary d i := by
  rw [boundary, List.dropLast_eq_take, List.take_take,
    min_eq_left (by omega)]

/-- Closed form for the splice positions computed by `join`:
`splice[i] = boundary[i] - excess * i*(i+1)/2` with `excess = crossfade/2`. -/
theorem joinSplices_getD (d : List ℚ) (c : ℚ) (i : ℕ) (h : i < d.length - 1) :
    (joinSplices d c).getD i 0 =
      boundary d i - c / 2 * ((i : ℚ) * ((i : ℚ) + 1) / 2) := by
  have hi : i < d.dropLast.length := by simpa [List.length_dropLast] using h
  rw [joinSplices, joinSplicesAux_getD _ _ _ hi, dropLast_take_sum d i h]

theorem boundary_succ (d : List ℚ) (i : ℕ) (h : i + 1 < d.length) :
    boundary d (i + 1) = boundary d i + d.getD (i + 1) 0 := by
  rw [boundary, boundary, List.sum_take_succ d (i + 1) h,
    List.getD_eq_getElem d 0 h]

/-- C1 counterexample: for two clips of durations 10 and 20 and crossfade 2
(`excess = 1`), `join` computes the single splice position `10`, not the
spec's `boundary[0] - excess = 9`: the first splice position gets no excess
subtracted by the loop, which starts at index 1. -/
theorem c1_spec_formula_counterexample :
    joinSplices [10, 20] 2 = [10] ∧ specSplices [10, 20] 2 = [9] ∧
      joinSplices [10, 20] 2 ≠ specSplices [10, 20] 2 := by
  refine ⟨?_, ?_, ?_⟩ <;>
    norm_num [joinSplices, joinSplicesAux, spliceLoop, specSplices, boundary,
      List.range_succ]

/-- C1 (amended): for every list of clip durations and every crossfade `c`,
`join` with `excess = c/2` computes `N-1` splice offsets with
`splice[i] = boundary[i] - excess * (i*(i+1)/2)` (the excess multiplier is
the triangular number `i*(i+1)/2`, not `i+1`); in particular the first
splice position equals `d[0]` — the first boundary, with no excess
subtracted. -/
theorem c1_join_splices_closed_form (d : List ℚ) (c : ℚ) :
    (joinSplices d c).length = d.length - 1 ∧
      (∀ i, i < d.length - 1 →
        (joinSplices d c).getD i 0 =
          boundary d i - c / 2 * ((i : ℚ) * ((i : ℚ) + 1) / 2)) ∧
      (2 ≤ d.length → (joinSplices d c).getD 0 0 = d.getD 0 0) := by
  refine ⟨joinSplices_length d c, fun i hi => joinSplices_getD d c i hi, ?_⟩
  intro h2
  have h0 : (0 : ℕ) < d.length - 1 := by omega
  rw [joinSplices_getD d c 0 h0]
  match d, h2 with
  | d0 :: d1 :: rest, _ => simp [boundary]

/-- Witness for C1 at a concrete input: durations `[10, 20, 30]`,
crossfade 2; the second splice is `boundary[1] - 1 * (1*2/2) = 30 - 1 = 29`. -/
theorem c1_join_splices_closed_form_witness :
    (joinSplices [10, 20, 30] 2).getD 1 0 =
      boundary [10, 20, 30] 1 - 2 / 2 * ((1 : ℚ) * ((1 : ℚ) + 1) / 2) :=
  (c1_join_splices_closed_form [10, 20, 30] 2).2.1 1 (by norm_num)

/-- C2 counterexample: for durations `[3, 3, 3, 3]` and crossfade 4 the
spec's hypothesis `c < 2*min(d)` holds (the minimum duration is 3 and
`4 < 2*3`), yet the computed splice positions `[3, 4, 3]` are not strictly
increasing, and the first splice position `3` is not strictly inside
`(0, boundary[0])`: it sits exactly at `boundary[0] = 3`. -/
theorem c2_monotonic_counterexample :
    (4 : ℚ) < 2 * 3 ∧
      joinSplices [3, 3, 3, 3] 4 = [3, 4, 3] ∧
      ¬ List.Pairwise (· < ·) (joinSplices [3, 3, 3, 3] 4) ∧
      ¬ (joinSplices [3, 3, 3, 3] 4).getD 0 0 < boundary [3, 3, 3, 3] 0 := by
  have h : joinSplices [3, 3, 3, 3] 4 = [3, 4, 3] := by
    norm_num [joinSplices, joinSplicesAux, spliceLoop]
  refine ⟨by norm_num, h, ?_, ?_⟩
  · rw [h]
    decide
  · rw [h]
    norm_num [boundary]

/-- C2 (amended): if the crossfade is positive and, for each inner index
`i ≥ 1`, the duration `d[i]` exceeds `excess * i*(i+1)/2` (a stronger bound
than the spec's `excess < min(d)`, matching the excess multiplier actually
accumulated by the loop), then the splice positions are strictly increasing;
the first splice position sits exactly at `boundary[0]` rather than strictly
inside, while every later splice position `splice[i]`, `i ≥ 1`, lies strictly
inside the open interval `(boundary[i-1], boundary[i])`. -/
theorem c2_splices_increasing_amended (d : List ℚ) (c : ℚ) (hc : 0 < c)
    (H : ∀ i, 1 ≤ i → i + 1 < d.length →
      c / 2 * ((i : ℚ) * ((i : ℚ) + 1) / 2) < d.getD i 0) :
    List.Pairwise (· < ·) (joinSplices d c) ∧
      (0 < (joinSplices d c).length →
        (joinSplices d c).getD 0 0 = boundary d 0) ∧
      (∀ i, 1 ≤ i → i < (joinSplices d c).length →
        boundary d (i - 1) < (joinSplices d c).getD i 0 ∧
          (joinSplices d c).getD i 0 < boundary d i) := by
  have hlen := joinSplices_length d c
  refine ⟨?_, ?_, ?_⟩
  · rw [← List.chain'_iff_pairwise]
    rw [List.chain'_iff_get]
    intro i hi
    have hi1 : i + 1 < d.length - 1 := by omega
    have hi0 : i < d.length - 1 := by omega
    have hgi := joinSplices_getD d c i hi0
    have hgi1 := joinSplices_getD d c (i + 1) hi1
    rw [← List.getD_eq_get _ 0, ← List.getD_eq_get _ 0, hgi, hgi1]
    have hb : boundary d (i + 1) = boundary d i + d.getD (i + 1) 0 :=
      boundary_succ d i (by omega)
    have hH := H (i + 1) (by omega) (by omega)
    have hnn : (0 : ℚ) ≤ c / 2 * ((i : ℚ) * ((i : ℚ) + 1) / 2) :=
      mul_nonneg (by linarith) (by positivity)
    rw [hb]
    push_cast at hH ⊢
    linarith [hH, hnn]
  · intro h0
    have h0' : (0 : ℕ) < d.length - 1 := by omega
    rw [joinSplices_getD d c 0 h0']
    norm_num
  · intro i h1 hilen
    have hi0 : i < d.length - 1 := by omega
    obtain ⟨j, rfl⟩ : ∃ j, i = j + 1 := ⟨i - 1, by omega⟩
    rw [joinSplices_getD d c (j + 1) hi0]
    have hb : boundary d (j + 1) = boundary d j + d.getD (j + 1) 0 :=
      boundary_succ d j (by omega)
    have hH := H (j + 1) (by omega) (by omega)
    have hpos : (0 : ℚ) <
        c / 2 * (((j : ℚ) + 1) * (((j : ℚ) + 1) + 1) / 2) :=
      mul_pos (by linarith) (by positivity)
    constructor
    · simp only [Nat.add_sub_cancel]
      rw [hb]
      push_cast at hH ⊢
      linarith [hH]
    · push_cast at hH hpos ⊢
      linarith [hpos]

/-- Witness for C2 at a concrete input: durations `[10, 10, 10]`,
crossfade 2. -/
theorem c2_splices_increasing_witness :
    List.Pairwise (· < ·) (joinSplices [10, 10, 10] 2) ∧
      (0 < (joinSplices [10, 10, 10] 2).length →
        (joinSplices [10, 10, 10] 2).getD 0 0 = boundary [10, 10, 10] 0) ∧
      (∀ i, 1 ≤ i → i < (joinSplices [10, 10, 10] 2).length →
        boundary [10, 10, 10] (i - 1) < (joinSplices [10, 10, 10] 2).getD i 0 ∧
          (joinSplices [10, 10, 10] 2).getD i 0 < boundary [10, 10, 10] i) := by
  refine c2_splices_increasing_amended [10, 10, 10] 2 (by norm_num) ?_
  intro i h1 hlen
  simp only [List.length_cons, List.length_nil] at hlen
  have h2 : i < 2 := by omega
  interval_cases i
  norm_num

/-- Default crossfade of `make_radio_program` (audio.py line 95):
`crossfade_duration: int = 2`. -/
def defaultCrossfadeDuration : ℚ := 2

/-- Embeds the splice planning of `make_radio_program` (audio.py lines
91-109): the crossfade parameter is handed through unchanged to `join`. -/
def makeRadioProgramSplices (durations : List ℚ) (crossfade : ℚ) : List ℚ :=
  joinSplices durations crossfade

/-- Embeds the assembly call of `Worker.compose_station` (worker.py line 87):
`make_radio_program(samples, program_path)` passes no crossfade argument, so
the default applies. -/
def composeStationSplices (durations : List ℚ) : List ℚ :=
  makeRadioProgramSplices durations defaultCrossfadeDuration

/-- C9: the crossfade length defaults to 2 seconds in `make_radio_program`
(so `excess = crossfade/2 = 1` second per splice), and `compose_station`
invokes assembly with exactly this default. -/
theorem c9_default_crossfade :
    defaultCrossfadeDuration = 2 ∧
      defaultCrossfadeDuration / 2 = 1 ∧
      ∀ durations, composeStationSplices durations = joinSplices durations 2 :=
  ⟨rfl, by norm_num [defaultCrossfadeDuration], fun _ => rfl⟩

/-- The error `shutil.copyfile` raises when its source file does not exist
(Python `FileNotFoundError`). -/
inductive StoreError
  | sourceNotFound

/-- Embeds the file-creating effect of `make_radio_program`/`join` on the
temporary directory: `join` returns early without invoking sox when
`input_paths` is empty (audio.py lines 73-74), so the output file is created
only when the accepted sample list is nonempty.  The file system is the list
of existing paths. -/
def makeRadioProgramCreates (samples : List ℚ) (outputPath : String)
    (fs : List String) : List String :=
  if samples.isEmpty then fs else outputPath :: fs

/-- Embeds the copying step of `Worker.copy_file_safely` (worker.py line
155): `shutil.copyfile(src, dst)` reads the source file, raising
`FileNotFoundError` when it does not exist. -/
def copyfileStep (src dst : String) (fs : List String) :
    Except StoreError (List String) :=
  if src ∈ fs then Except.ok (dst :: fs) else Except.error StoreError.sourceNotFound

/-- Embeds the assemble-then-store tail of `Worker.compose_station`
(worker.py lines 86-92): the program is assembled into the temporary
directory and then stored unconditionally — there is no guard on the program
file existing. -/
def composeStationStore (samples : List ℚ) : Except StoreError (List String) :=
  let fs := makeRadioProgramCreates samples "00.wav" []
  copyfileStep "00.wav" "stored/00.wav" fs

/-- C5: with an empty accepted sample list no assembly occurs and the program
file is never created, but `compose_station` does not skip storage: it calls
`copy_file_safely` on the absent program file and the job fails with a
file-not-found error, while any nonempty sample list stores successfully. -/
theorem c5_empty_samples_store_fails :
    composeStationStore [] = Except.error StoreError.sourceNotFound ∧
      composeStationStore [10] =
        Except.ok ["stored/00.wav", "00.wav"] :=
  ⟨rfl, rfl⟩

/-- Embeds pathlib's `with_stem`: replaces the stem of a (stem, suffix)
file-name pair, keeping the suffix. -/
def withStem (name : String × String) (stem : String) : String × String :=
  (stem, name.2)

/-- Embeds the collision loop of `Worker.copy_file_safely` (worker.py lines
149-154): starting from the destination name `dst` (initially the source's
own name) and `num = 1`, while `dst` exists in the destination directory
(`existing`), replace the stem by `src.stem + "-" + str(num)` and increment
`num`.  The Python loop iterates `itertools.count(1)` unboundedly; the model
carries explicit fuel and returns `none` only on fuel exhaustion, which a
large enough fuel makes unreachable. -/
def findFreeName (srcStem : String) (existing : List (String × String)) :
    (String × String) → ℕ → ℕ → Option (String × String)
  | _, _, 0 => none
  | dst, num, fuel + 1 =>
      if dst ∈ existing then
        findFreeName srcStem existing
          (withStem dst (srcStem ++ "-" ++ toString num)) (num + 1) fuel
      else some dst

/-- Embeds `Worker.copy_file_safely`'s choice of destination name. -/
def copyFileSafely (src : String × String) (existing : List (String × String))
    (fuel : ℕ) : Option (String × String) :=
  findFreeName src.1 existing src 1 fuel

/-- Helper: whatever name the collision loop settles on is not an existing
name, and it keeps the suffix of the starting candidate. -/
theorem findFreeName_spec (srcStem : String)
    (existing : List (String × String)) :
    ∀ (fuel : ℕ) (dst : String × String) (num : ℕ) (r : String × String),
      findFreeName srcStem existing dst num fuel = some r →
        r ∉ existing ∧ r.2 = dst.2 := by
  intro fuel
  induction fuel with
  | zero => intro dst num r h; simp [findFreeName] at h
  | succ fuel ih =>
      intro dst num r h
      rw [findFreeName] at h
      by_cases hmem : dst ∈ existing
      · rw [if_pos hmem] at h
        exact ih (withStem dst (srcStem ++ "-" ++ toString num)) (num + 1) r h
      · rw [if_neg hmem] at h
        cases h
        exact ⟨hmem, rfl⟩

/-- C6: storing `a.wav` into a directory already containing `a.wav` stores it
as `a-1.wav`; storing it again (with both present) stores it as `a-2.wav`;
the chosen destination name is never one that already exists (so the
pre-existing `a.wav` is never overwritten), and the numeric disambiguation
suffix is appended to the stem while the extension is preserved. -/
theorem c6_safe_store :
    copyFileSafely ("a", ".wav") [("a", ".wav")] 10 = some ("a-1", ".wav") ∧
      copyFileSafely ("a", ".wav") [("a", ".wav"), ("a-1", ".wav")] 10 =
        some ("a-2", ".wav") ∧
      (∀ (src : String × String) (existing : List (String × String))
        (fuel : ℕ) (r : String × String),
          copyFileSafely src existing fuel = some r →
            r ∉ existing ∧ r.2 = src.2) :=
  ⟨by decide, by decide,
    fun src existing fuel r h => findFreeName_spec src.1 existing fuel src 1 r h⟩

/-- Witness for C6: the no-overwrite conclusion, instantiated at storing
`a.wav` into a directory that already holds `a.wav`. -/
theorem c6_safe_store_witness :
    ("a-1", ".wav") ∉ [("a", ".wav")] ∧
      (("a-1", ".wav") : String × String).2 =
        (("a", ".wav") : String × String).2 :=
  c6_safe_store.2.2 ("a", ".wav") [("a", ".wav")] 10 ("a-1", ".wav")
    c6_safe_store.1

/-- Embeds `Worker.choose_samples_urls` over the per-section shuffled sample
lists produced by `Worker.collect_catalogs_sounds` (worker.py lines 100-112).
`zip_longest(*catalogs_sounds)` produces one round per index up to the
longest list, padding exhausted sections with `None` (`none` here, retrieved
by `l.get? r`); each round is re-shuffled by `random.sample` — modelled by
the function `perm`, assumed in the theorems to permute its input — and
`filter(None, ...)` drops the padding slots before the round is emitted. -/
def chooseSamplesUrls {α : Type} (perm : ℕ → List (Option α) → List (Option α))
    (lists : List (List α)) : List α :=
  (List.range ((lists.map List.length).foldr max 0)).flatMap
    (fun r => (perm r (lists.map (fun l => l.get? r))).filterMap id)

/-- C8: for three sections whose shuffled sample lists have sizes
`[2, 3, 1]` (fanout 3), and any per-round reshuffle, the interleaved
candidate stream yields exactly 6 items, is a permutation of the
concatenation of the three lists (each original locator exactly once), and
its first round — the first three items — is a permutation of the heads of
the three (all nonempty) sections. -/
theorem c8_diversifier {α : Type}
    (perm : ℕ → List (Option α) → List (Option α))
    (hperm : ∀ r l, List.Perm (perm r l) l) (a1 a2 b1 b2 b3 c1 : α) :
    (chooseSamplesUrls perm [[a1, a2], [b1, b2, b3], [c1]]).length = 6 ∧
      List.Perm (chooseSamplesUrls perm [[a1, a2], [b1, b2, b3], [c1]])
        ([a1, a2] ++ [b1, b2, b3] ++ [c1]) ∧
      List.Perm
        ((chooseSamplesUrls perm [[a1, a2], [b1, b2, b3], [c1]]).take 3)
        [a1, b1, c1] := by
  have he : chooseSamplesUrls perm [[a1, a2], [b1, b2, b3], [c1]] =
      (perm 0 [some a1, some b1, some c1]).filterMap id ++
        ((perm 1 [some a2, some b2, none]).filterMap id ++
          ((perm 2 [none, some b3, none]).filterMap id ++ [])) := rfl
  have p0 : List.Perm ((perm 0 [some a1, some b1, some c1]).filterMap id)
      [a1, b1, c1] := by
    simpa using List.Perm.filterMap id (hperm 0 [some a1, some b1, some c1])
  have p1 : List.Perm ((perm 1 [some a2, some b2, none]).filterMap id)
      [a2, b2] := by
    simpa using List.Perm.filterMap id (hperm 1 [some a2, some b2, none])
  have p2 : List.Perm ((perm 2 [none, some b3, none]).filterMap id) [b3] := by
    simpa using List.Perm.filterMap id (hperm 2 [none, some b3, none])
  have hcat : List.Perm (chooseSamplesUrls perm [[a1, a2], [b1, b2, b3], [c1]])
      ([a1, b1, c1] ++ ([a2, b2] ++ [b3])) := by
    rw [he]
    simp only [List.append_nil]
    exact p0.append (p1.append p2)
  have hshuffle : List.Perm ([a1, b1, c1] ++ ([a2, b2] ++ [b3]) : List α)
      ([a1, a2] ++ [b1, b2, b3] ++ [c1]) := by
    have hmid : (([b1, c1] ++ a2 :: [b2, b3]) : List α).Perm
        (a2 :: ([b1, c1] ++ [b2, b3])) := List.perm_middle
    have htail : ([c1, b2, b3] : List α).Perm [b2, b3, c1] :=
      @List.perm_append_comm α [c1] [b2, b3]
    exact List.Perm.cons a1
      (hmid.trans (List.Perm.cons a2 (List.Perm.cons b1 htail)))
  refine ⟨?_, hcat.trans hshuffle, ?_⟩
  · rw [hcat.length_eq]
    rfl
  · rw [he, List.take_left' (by rw [p0.length_eq]; rfl)]
    exact p0

/-- Witness for C8 at a concrete input: the identity reshuffle and the
locators `0..5`. -/
theorem c8_diversifier_witness :
    (chooseSamplesUrls (fun _ l => l) [[0, 1], [2, 3, 4], [5]]).length = 6 ∧
      List.Perm (chooseSamplesUrls (fun _ l => l) [[0, 1], [2, 3, 4], [5]])
        ([0, 1] ++ [2, 3, 4] ++ [5]) ∧
      List.Perm
        ((chooseSamplesUrls (fun _ l => l) [[0, 1], [2, 3, 4], [5]]).take 3)
        [0, 2, 5] :=
  c8_diversifier (fun _ l => l) (fun _ l => List.Perm.refl l) 0 1 2 3 4 5

end RadioScripts
